import Mathlib

/- Shallow embedding of the git automation scripts of this repository:
   src/enhanced_git_automation.py and src/auto_commit.py.
   Python strings are modelled as lists of unicode code points, so that
   Python len and slicing agree with List.length, List.take and List.drop. -/

/-- Model type for Python strings: a list of unicode code points. -/
abbrev Str := List Char

/-- Turn a Lean string literal into the model type. -/
def str (s : String) : Str := s.data

/-- Python whitespace test used by str.strip (the ASCII whitespace set). -/
def pyIsSpace (c : Char) : Bool :=
  c == ' ' || c == '\t' || c == '\n' || c == '\r' || c.toNat == 11 || c.toNat == 12

/-- Python str.strip with no argument: drop whitespace from both ends. -/
def pyStrip (s : Str) : Str :=
  ((s.dropWhile pyIsSpace).reverse.dropWhile pyIsSpace).reverse

/-- Python str.lower, restricted to the ASCII case map. -/
def pyLower (s : Str) : Str := s.map Char.toLower

/-- Python str.upper, restricted to the ASCII case map. -/
def pyUpper (s : Str) : Str := s.map Char.toUpper

/-- Python substring membership: the expression pat in s holds when pat
occurs contiguously at some offset of s. -/
def pyContains (s pat : Str) : Bool :=
  (List.range (s.length + 1)).any (fun i => pat.isPrefixOf (s.drop i))

/-- Python slice s[:k] with a possibly negative bound k. -/
def pySliceTo (s : Str) (k : Int) : Str :=
  if 0 ≤ k then s.take k.toNat else s.take ((s.length : Int) + k).toNat

/-- Decimal rendering of a count, as Python str(n) inside an f-string. -/
def natStr (n : Nat) : Str := (Nat.repr n).data

/- ## IntelligentCommitGenerator (src/enhanced_git_automation.py lines 93-199) -/

/-- The two configuration keys read by IntelligentCommitGenerator
(enhanced_git_automation.py lines 154 and 160); the dict defaults are
includeTimestamp = true and maxMessageLength = 100. Python ints can be
negative, so the length limit is an integer. -/
structure CommitGenConfig where
  includeTimestamp : Bool
  maxMessageLength : Int
deriving DecidableEq

/-- Change-type label table, enhanced_git_automation.py lines 110-118. -/
def typeLabel (changeType : Str) : Str :=
  if changeType = str "added" then str "✨ 新增"
  else if changeType = str "modified" then str "📝 修改"
  else if changeType = str "deleted" then str "🗑️ 删除"
  else if changeType = str "renamed" then str "📦 重命名"
  else if changeType = str "mixed" then str "🔄 混合变更"
  else str "🔄 变更"

/-- The six file categories of _categorize_files, in the insertion order of
the dict literal at lines 168-175: code, config, docs, style, test, other. -/
inductive Cat
  | code
  | config
  | docs
  | style
  | test
  | other
deriving DecidableEq

/-- Position of a category in the fixed enumeration order of the dict. -/
def catIdx : Cat → Nat
  | .code => 0
  | .config => 1
  | .docs => 2
  | .style => 3
  | .test => 4
  | .other => 5

/-- The categories in dict insertion order. -/
def allCats : List Cat := [.code, .config, .docs, .style, .test, .other]

/-- Path(p).name: the final path component (posix separators). -/
def baseName (p : Str) : Str :=
  ((p.splitOn '/').filter (fun seg => seg ≠ [])).getLastD []

/-- Source-code extensions, line 182. -/
def codeExts : List Str :=
  [str ".py", str ".js", str ".ts", str ".jsx", str ".tsx", str ".go",
   str ".rs", str ".java", str ".cpp", str ".c", str ".h"]

/-- Structured-config extensions, line 185. -/
def configExts : List Str :=
  [str ".json", str ".yml", str ".yaml", str ".toml", str ".ini", str ".cfg"]

/-- Documentation extensions, line 188. -/
def docExts : List Str :=
  [str ".md", str ".txt", str ".rst", str ".doc", str ".docx"]

/-- Stylesheet extensions, line 191. -/
def styleExts : List Str :=
  [str ".css", str ".scss", str ".less", str ".sass"]

/-- Python any(s.endswith(e) for e in exts). -/
def endsWithAny (s : Str) (exts : List Str) : Bool :=
  exts.any (fun e => e.isSuffixOf s)

/-- The if-elif classification chain of _categorize_files, lines 177-197.
The test clause only fires for files that matched none of the extension
lists, exactly as in the source. -/
def categoryOf (filePath : Str) : Cat :=
  let fl := pyLower filePath
  let fn := pyLower (baseName filePath)
  if endsWithAny fl codeExts then .code
  else if endsWithAny fl configExts then .config
  else if endsWithAny fl docExts then .docs
  else if endsWithAny fl styleExts then .style
  else if (str "test_").isPrefixOf fn || (str "_test.py").isSuffixOf fn ||
          pyContains fl (str "test") then .test
  else .other

/-- Number of files the chain assigns to category c. -/
def catCount (c : Cat) (files : List Str) : Nat :=
  files.countP (fun f => decide (categoryOf f = c))

/-- The filtered category-count dict returned at line 199, preserving the
insertion order of the keys. -/
def fileCategories (files : List Str) : List (Cat × Nat) :=
  (allCats.map (fun c => (c, catCount c files))).filter (fun p => decide (0 < p.2))

/-- One comparison step of Python max(keys, key=...): a later entry
replaces the current best only when strictly larger. -/
def maxStep (best y : Cat × Nat) : Cat × Nat :=
  if best.2 < y.2 then y else best

/-- Python max(keys, key=...) over an association list: scanning left to
right with maxStep, so the first maximal entry wins. -/
def pyMaxBySnd : List (Cat × Nat) → Option (Cat × Nat)
  | [] => none
  | x :: xs => some (xs.foldl maxStep x)

/-- main_category computed at line 131 (none when the dict is empty). -/
def mainCategory (files : List Str) : Option Cat :=
  (pyMaxBySnd (fileCategories files)).map (fun p => p.1)

/-- category_names table, lines 132-139. -/
def catName : Cat → Str
  | .code => str "代码"
  | .config => str "配置"
  | .docs => str "文档"
  | .style => str "样式"
  | .test => str "测试"
  | .other => str "其他"

/-- category_desc, lines 129-140: empty when no category has a positive
count, otherwise the bracketed label of the dominant category. -/
def categoryDesc (files : List Str) : Str :=
  match mainCategory files with
  | some c => str " [" ++ catName c ++ str "]"
  | none => []

/-- file_desc, lines 124-127. -/
def fileDesc (files : List Str) : Str :=
  if files.length = 1 then str "1 个文件"
  else natStr files.length ++ str " 个文件"

/-- The ": file, file" tail of the message, lines 146-151: up to four files
are listed in full, otherwise the first three with a trailing marker. -/
def fileListPart (files : List Str) : Str :=
  if files.length ≤ 3 then str ": " ++ List.intercalate (str ", ") files
  else if files.length = 4 then str ": " ++ List.intercalate (str ", ") files
  else str ": " ++ List.intercalate (str ", ") (files.take 3) ++ str " 等"

/-- The assembled message before the length cap (lines 106-157). The
timestamp argument stands for datetime.now() formatted at call time, an
input the source reads from the wall clock. -/
def assembleMessage (changeType : Str) (files : List Str)
    (cfg : CommitGenConfig) (timestamp : Str) : Str :=
  typeLabel changeType ++ (fileDesc files ++ categoryDesc files) ++
    fileListPart files ++
    (if cfg.includeTimestamp then str " [" ++ timestamp ++ str "]" else [])

/-- generate_commit_message, lines 99-164, including the cap at lines
159-162: commit_message[:max_length-3] + "..." with Python slice
semantics (a negative bound counts from the end of the string). -/
def generateCommitMessage (changeType : Str) (files : List Str)
    (cfg : CommitGenConfig) (timestamp : Str) : Str :=
  let m := assembleMessage changeType files cfg timestamp
  if cfg.maxMessageLength < (m.length : Int) then
    pySliceTo m (cfg.maxMessageLength - 3) ++ str "..."
  else m

/- ## Claims C2 and C4 -/

/-- Claim C2, counterexample: with max_message_length = 2 the Python slice
bound 2 - 3 = -1 drops one character from the end instead of truncating,
and the returned message is longer than the configured cap. -/
theorem c2_counterexample :
    2 < (generateCommitMessage (str "modified") [str "abcdefgh.py"]
          ⟨false, 2⟩ []).length := by
  decide

/-- Claim C2 as amended: provided maxMessageLength is at least 3, the
message returned by generate_commit_message has length at most
maxMessageLength; the assembled string is returned unchanged when it fits,
and otherwise the result is its first maxMessageLength - 3 characters
followed by the three-dot marker, applied exactly once at the end. -/
theorem c2_amended (changeType : Str) (files : List Str)
    (cfg : CommitGenConfig) (timestamp : Str)
    (h3 : 3 ≤ cfg.maxMessageLength) :
    ((generateCommitMessage changeType files cfg timestamp).length : Int) ≤
        cfg.maxMessageLength ∧
    (((assembleMessage changeType files cfg timestamp).length : Int) ≤
        cfg.maxMessageLength →
      generateCommitMessage changeType files cfg timestamp =
        assembleMessage changeType files cfg timestamp) ∧
    (cfg.maxMessageLength <
        ((assembleMessage changeType files cfg timestamp).length : Int) →
      generateCommitMessage changeType files cfg timestamp =
        (assembleMessage changeType files cfg timestamp).take
          (cfg.maxMessageLength - 3).toNat ++ str "..." ∧
      ((generateCommitMessage changeType files cfg timestamp).length : Int) =
        cfg.maxMessageLength) := by
  set m := assembleMessage changeType files cfg timestamp with hm
  by_cases hlong : cfg.maxMessageLength < (m.length : Int)
  · have hslice : pySliceTo m (cfg.maxMessageLength - 3) =
        m.take (cfg.maxMessageLength - 3).toNat := by
      unfold pySliceTo
      rw [if_pos (by omega)]
    have hgen : generateCommitMessage changeType files cfg timestamp =
        m.take (cfg.maxMessageLength - 3).toNat ++ str "..." := by
      unfold generateCommitMessage
      rw [← hm, if_pos hlong, hslice]
    have hlen : ((m.take (cfg.maxMessageLength - 3).toNat ++ str "...").length : Int) =
        cfg.maxMessageLength := by
      rw [List.length_append, List.length_take]
      have h1 : (cfg.maxMessageLength - 3).toNat ≤ m.length := by omega
      have h2 : min (cfg.maxMessageLength - 3).toNat m.length =
          (cfg.maxMessageLength - 3).toNat := Nat.min_eq_left h1
      rw [h2]
      have h4 : ((str "...").length : Nat) = 3 := by decide
      rw [h4]
      omega
    refine ⟨?_, ?_, ?_⟩
    · rw [hgen, hlen]
    · intro hfit
      omega
    · intro _
      exact ⟨hgen, by rw [hgen, hlen]⟩
  · have hgen : generateCommitMessage changeType files cfg timestamp = m := by
      unfold generateCommitMessage
      rw [← hm, if_neg hlong]
    refine ⟨?_, ?_, ?_⟩
    · rw [hgen]; omega
    · intro _
      exact hgen
    · intro hbad
      exact absurd hbad hlong

/-- Witness for the amended claim C2 at a concrete long input. -/
theorem c2_amended_witness :
    ((3:Int) ≤ (10:Int)) ∧
    ((generateCommitMessage (str "modified")
        [str "averyveryverylongfilename.py"] ⟨false, 10⟩ []).length : Int) ≤ 10 := by
  refine ⟨by norm_num, ?_⟩
  exact (c2_amended (str "modified") [str "averyveryverylongfilename.py"]
    ⟨false, 10⟩ [] (by norm_num)).1

/-- Claim C4, counterexample: with include_timestamp enabled (the default),
the message embeds the formatted wall-clock reading, so two calls with
identical changeType, files and config but made at different times return
different messages. -/
theorem c4_counterexample :
    generateCommitMessage (str "modified") [str "a.py"] ⟨true, 100⟩
        (str "2025-01-01 00:00:00") ≠
      generateCommitMessage (str "modified") [str "a.py"] ⟨true, 100⟩
        (str "2025-01-01 00:00:01") := by
  decide

/-- Claim C4 as amended: the synthesizer is a pure function of changeType,
files, config and the formatted clock reading; when include_timestamp is
disabled the clock is unused and identical (changeType, files, config)
inputs yield byte-identical messages across calls. -/
theorem c4_amended (changeType : Str) (files : List Str)
    (cfg : CommitGenConfig) (t1 t2 : Str)
    (h : cfg.includeTimestamp = false) :
    generateCommitMessage changeType files cfg t1 =
      generateCommitMessage changeType files cfg t2 := by
  unfold generateCommitMessage assembleMessage
  rw [h]
  simp

/-- Witness for the amended claim C4 at a concrete input. -/
theorem c4_amended_witness :
    generateCommitMessage (str "added") [str "a.py"] ⟨false, 100⟩
        (str "2025-01-01 00:00:00") =
      generateCommitMessage (str "added") [str "a.py"] ⟨false, 100⟩
        (str "2025-01-01 00:00:01") :=
  c4_amended (str "added") [str "a.py"] ⟨false, 100⟩
    (str "2025-01-01 00:00:00") (str "2025-01-01 00:00:01") rfl

/- ## Pending change queue (src/enhanced_git_automation.py lines 339, 654-660) -/

/-- One queued change dict appended by GitAutomationHandler.on_any_event,
lines 656-660. -/
structure ChangeEvent where
  eventType : Str
  filePath : Str
  timestamp : Nat
deriving DecidableEq

/-- on_any_event appends the new event to pending_changes (line 656);
pending_changes is a plain Python list initialised at line 339. -/
def recordEvent (pending : List ChangeEvent) (e : ChangeEvent) : List ChangeEvent :=
  pending ++ [e]

/-- A sequence of record calls with no intervening drain. -/
def recordAll (pending : List ChangeEvent) (evs : List ChangeEvent) : List ChangeEvent :=
  evs.foldl recordEvent pending

/-- Claim C5, counterexample: two events for the same path leave two
entries in the pending queue, so the queue does not hold exactly one
entry per distinct path. -/
theorem c5_counterexample :
    1 < ((recordAll [] [⟨str "modified", str "a.py", 0⟩,
                        ⟨str "deleted", str "a.py", 1⟩]).filter
          (fun e => e.filePath == str "a.py")).length := by
  decide

/-- Claim C5 as amended: with no intervening drain, the pending structure
is an append-only list holding one entry per record call in arrival order;
repeated events for the same path are all retained (there is no
last-write-wins merging by path). -/
theorem c5_amended (pending : List ChangeEvent) (evs : List ChangeEvent) :
    recordAll pending evs = pending ++ evs := by
  induction evs generalizing pending with
  | nil => simp [recordAll]
  | cons e rest ih =>
    have h1 : recordAll pending (e :: rest) = recordAll (pending ++ [e]) rest := rfl
    rw [h1, ih]
    simp

/- ## Debounce scheduling (src/enhanced_git_automation.py lines 643-666) -/

/-- A point on the timeline: the arrival of a qualifying filesystem event,
or the expiry of one threading.Timer started for such an event at
line 663 (each event starts its own timer; none is ever cancelled). -/
inductive Moment
  | ev (t : Nat)
  | fire (t : Nat)
deriving DecidableEq

/-- Merge the chronologically ordered event arrivals with the timer
expiries they spawn, in time order; at equal times the event is delivered
first. -/
def mergeMoments : List Nat → List Nat → List Moment
  | [], ts => ts.map Moment.fire
  | e :: es, [] => (e :: es).map Moment.ev
  | e :: es, t :: ts =>
    if e ≤ t then Moment.ev e :: mergeMoments es (t :: ts)
    else Moment.fire t :: mergeMoments (e :: es) ts

/-- Walk the timeline: an event arrival appends to the pending queue
(lines 654-660, tracked here as a nonemptiness flag); a timer expiry
invokes process_changes, which performs a flush attempt exactly when the
queue is nonempty and clears it (lines 519-616, success path), and is a
no-op otherwise (line 522). -/
def flushCount : List Moment → Bool → Nat
  | [], _ => 0
  | .ev _ :: rest, _ => flushCount rest true
  | .fire _ :: rest, pending => (if pending then 1 else 0) + flushCount rest false

/-- The pending flag left after walking the timeline. -/
def pendingAfter : List Moment → Bool → Bool
  | [], p => p
  | .ev _ :: rest, _ => pendingAfter rest true
  | .fire _ :: rest, _ => pendingAfter rest false

/-- Total flush attempts performed for a chronologically ordered list of
qualifying event times under commit delay d: every event at time t starts
an independent timer expiring at t + d. -/
def flushAttempts (es : List Nat) (d : Nat) : Nat :=
  flushCount (mergeMoments es (es.map (fun t => t + d))) false

/-- Claim C1, counterexample: three events at times 0, 4, 8 with commit
delay 5 have consecutive gaps below the delay, yet the stacked timers
(one per event, never reset) produce two flush attempts, not one: the
timer of the first event fires at time 5, before the third event. -/
theorem c1_counterexample :
    (4 - 0 < 5 ∧ 8 - 4 < 5) ∧
    flushAttempts [0, 4, 8] 5 = 2 ∧ flushAttempts [0, 4, 8] 5 ≠ 1 := by
  have h : mergeMoments [0, 4, 8] [5, 9, 13] =
      [.ev 0, .ev 4, .fire 5, .ev 8, .fire 9, .fire 13] := by
    simp [mergeMoments]
  refine ⟨by omega, ?_, ?_⟩ <;>
    simp [flushAttempts, List.map, h, flushCount]

/-- With no timer due before any remaining event, all events are delivered
first. -/
theorem merge_events_first (es es2 ts : List Nat)
    (h : ∀ e ∈ es, ∀ t ∈ ts, e ≤ t) :
    mergeMoments (es ++ es2) ts = es.map Moment.ev ++ mergeMoments es2 ts := by
  induction es with
  | nil => simp
  | cons e es ih =>
    cases ts with
    | nil =>
      have hl : ∀ l : List Nat, mergeMoments l [] = l.map Moment.ev := by
        intro l
        cases l <;> simp [mergeMoments]
      rw [hl, hl]
      simp
    | cons t ts =>
      have he : e ≤ t := h e (by simp) t (by simp)
      rw [List.cons_append,
        show mergeMoments (e :: (es ++ es2)) (t :: ts) =
            Moment.ev e :: mergeMoments (es ++ es2) (t :: ts) from by
          simp [mergeMoments, he],
        ih (fun a ha u hu => h a (by simp [ha]) u hu)]
      simp

/-- With every pending timer due before any remaining event, the timers all
fire first. -/
theorem merge_fires_first (es ts ts2 : List Nat)
    (h : ∀ t ∈ ts, ∀ e ∈ es, t < e) :
    mergeMoments es (ts ++ ts2) = ts.map Moment.fire ++ mergeMoments es ts2 := by
  induction ts with
  | nil => simp
  | cons t ts ih =>
    cases es with
    | nil =>
      simp [mergeMoments]
    | cons e es =>
      have ht : t < e := h t (by simp) e (by simp)
      have hne : ¬ e ≤ t := by omega
      rw [List.cons_append,
        show mergeMoments (e :: es) (t :: (ts ++ ts2)) =
            Moment.fire t :: mergeMoments (e :: es) (ts ++ ts2) from by
          simp [mergeMoments, hne],
        ih (fun a ha u hu => h a (by simp [ha]) u hu)]
      simp

/-- Flush counting splits over a timeline concatenation. -/
theorem flushCount_append (l1 l2 : List Moment) (p : Bool) :
    flushCount (l1 ++ l2) p = flushCount l1 p + flushCount l2 (pendingAfter l1 p) := by
  induction l1 generalizing p with
  | nil => simp [flushCount, pendingAfter]
  | cons m rest ih =>
    cases m with
    | ev t => simp [flushCount, pendingAfter, ih]
    | fire t =>
      simp [flushCount, pendingAfter, ih]
      omega

/-- Event arrivals alone never flush. -/
theorem flushCount_evs (es : List Nat) (p : Bool) :
    flushCount (es.map Moment.ev) p = 0 := by
  induction es generalizing p with
  | nil => simp [flushCount]
  | cons e es ih => simp [flushCount, ih]

/-- After at least one event arrival the queue is nonempty. -/
theorem pendingAfter_evs (es : List Nat) (p : Bool) (h : es ≠ []) :
    pendingAfter (es.map Moment.ev) p = true := by
  induction es generalizing p with
  | nil => exact absurd rfl h
  | cons e es ih =>
    cases es with
    | nil => simp [pendingAfter]
    | cons f fs => simpa [pendingAfter] using ih true (by simp)

/-- Timer expiries with an empty queue never flush. -/
theorem flushCount_fires_false (ts : List Nat) :
    flushCount (ts.map Moment.fire) false = 0 := by
  induction ts with
  | nil => simp [flushCount]
  | cons t ts ih => simp [flushCount, ih]

/-- A nonempty run of timer expiries starting with a nonempty queue flushes
exactly once: the first expiry flushes and clears, the rest are no-ops. -/
theorem flushCount_fires_true (ts : List Nat) (h : ts ≠ []) :
    flushCount (ts.map Moment.fire) true = 1 := by
  cases ts with
  | nil => exact absurd rfl h
  | cons t ts => simp [flushCount, flushCount_fires_false]

/-- A nonempty run of timer expiries leaves the queue empty. -/
theorem pendingAfter_fires (ts : List Nat) (p : Bool) (h : ts ≠ []) :
    pendingAfter (ts.map Moment.fire) p = false := by
  induction ts generalizing p with
  | nil => exact absurd rfl h
  | cons t ts ih =>
    cases ts with
    | nil => simp [pendingAfter]
    | cons u us => simpa [pendingAfter] using ih false (by simp)

/-- A single burst whose total span is below the delay flushes once. -/
theorem flushAttempts_burst (es : List Nat) (d : Nat) (h : es ≠ [])
    (hb : ∀ a ∈ es, ∀ b ∈ es, a < b + d) :
    flushAttempts es d = 1 := by
  unfold flushAttempts
  have hle : ∀ e ∈ es, ∀ t ∈ es.map (fun t => t + d), e ≤ t := by
    intro e he t ht
    obtain ⟨b, hb', rfl⟩ := List.mem_map.mp ht
    exact Nat.le_of_lt (hb e he b hb')
  have hm : mergeMoments es (es.map (fun t => t + d)) =
      es.map Moment.ev ++ (es.map (fun t => t + d)).map Moment.fire := by
    have h0 := merge_events_first es [] (es.map (fun t => t + d)) hle
    simpa [mergeMoments] using h0
  rw [hm, flushCount_append, flushCount_evs, pendingAfter_evs _ _ h,
    flushCount_fires_true _ (by simpa using h)]

/-- Claim C1 as amended: each qualifying event starts its own independent
delay timer (timers are stacked, never reset). A burst of events whose
pairwise spacing keeps the whole burst inside one delay window produces
exactly one flush attempt (the later expiries find an empty queue), and a
second such burst separated from the first by more than the delay adds
exactly one more, for two flush attempts in total. A burst of events with
consecutive gaps below the delay but total span beyond it can produce more
than one flush attempt. -/
theorem c1_amended (d : Nat) (es1 es2 : List Nat)
    (h1 : es1 ≠ []) (h2 : es2 ≠ [])
    (hb1 : ∀ a ∈ es1, ∀ b ∈ es1, a < b + d)
    (hb2 : ∀ a ∈ es2, ∀ b ∈ es2, a < b + d)
    (hgap : ∀ a ∈ es1, ∀ b ∈ es2, a + d < b) :
    flushAttempts es1 d = 1 ∧ flushAttempts (es1 ++ es2) d = 2 := by
  refine ⟨flushAttempts_burst es1 d h1 hb1, ?_⟩
  unfold flushAttempts
  have hts : (es1 ++ es2).map (fun t => t + d) =
      es1.map (fun t => t + d) ++ es2.map (fun t => t + d) := List.map_append _ _ _
  have hA : ∀ e ∈ es1, ∀ t ∈ es1.map (fun t => t + d) ++ es2.map (fun t => t + d),
      e ≤ t := by
    intro e he t ht
    rcases List.mem_append.mp ht with ht | ht
    · obtain ⟨b, hb', rfl⟩ := List.mem_map.mp ht
      exact Nat.le_of_lt (hb1 e he b hb')
    · obtain ⟨b, hb', rfl⟩ := List.mem_map.mp ht
      have := hgap e he b hb'
      omega
  have hB : ∀ t ∈ es1.map (fun t => t + d), ∀ e ∈ es2, t < e := by
    intro t ht e he
    obtain ⟨a, ha, rfl⟩ := List.mem_map.mp ht
    exact hgap a ha e he
  have hC : ∀ e ∈ es2, ∀ t ∈ es2.map (fun t => t + d), e ≤ t := by
    intro e he t ht
    obtain ⟨b, hb', rfl⟩ := List.mem_map.mp ht
    exact Nat.le_of_lt (hb2 e he b hb')
  have hm2 : mergeMoments es2 (es2.map (fun t => t + d)) =
      es2.map Moment.ev ++ (es2.map (fun t => t + d)).map Moment.fire := by
    have h0 := merge_events_first es2 [] (es2.map (fun t => t + d)) hC
    simpa [mergeMoments] using h0
  rw [hts, merge_events_first es1 es2 _ hA,
    merge_fires_first es2 (es1.map (fun t => t + d)) (es2.map (fun t => t + d)) hB,
    hm2]
  rw [flushCount_append, flushCount_evs, pendingAfter_evs _ _ h1,
    flushCount_append, flushCount_fires_true _ (by simpa using h1),
    pendingAfter_fires _ _ (by simpa using h1),
    flushCount_append, flushCount_evs, pendingAfter_evs _ _ h2,
    flushCount_fires_true _ (by simpa using h2)]

/-- Witness for the amended claim C1: two tight bursts, delay 5. -/
theorem c1_amended_witness :
    flushAttempts [0, 1] 5 = 1 ∧ flushAttempts ([0, 1] ++ [10, 11]) 5 = 2 :=
  c1_amended 5 [0, 1] [10, 11] (by decide) (by decide)
    (by decide) (by decide) (by decide)

/- ## MergeConflictPrevention.check_for_conflicts (lines 201-271) -/

/-- The subprocess results check_for_conflicts consumes, one field per git
invocation at lines 212-259: fetch, branch --show-current, the unpushed
log query, merge-base and merge-tree. -/
structure ConflictWorld where
  fetchOk : Bool
  fetchStderr : Str
  branchStdout : Str
  unpushedOk : Bool
  unpushedStdout : Str
  mergeBaseOk : Bool
  mergeBaseStdout : Str
  mergeBaseStderr : Str
  mergeTreeOk : Bool
  mergeTreeStdout : Str
deriving DecidableEq

/-- check_for_conflicts, lines 209-271, as a function of the subprocess
results. The first component of the returned pair is the has_conflicts
flag as read by the callers at lines 280 and 558. -/
def checkForConflicts (w : ConflictWorld) (targetBranch : Option Str) : Bool × Str :=
  if w.fetchOk = false then
    (false, str "获取远程状态失败: " ++ w.fetchStderr)
  else
    let currentBranch := pyStrip w.branchStdout
    let target := targetBranch.getD currentBranch
    if w.unpushedOk && decide (pyStrip w.unpushedStdout ≠ []) then
      (true, str "本地分支 " ++ currentBranch ++ str " 有未推送的提交")
    else if w.mergeBaseOk = false then
      (false, str "无法确定合并基础: " ++ w.mergeBaseStderr)
    else if w.mergeTreeOk then
      if pyContains w.mergeTreeStdout (str "=======") ||
         pyContains w.mergeTreeStdout (str "<<<<<<<") then
        (true, str "检测到潜在冲突：" ++ target)
      else
        (false, str "无冲突")
    else
      (false, str "无法检查冲突状态")

/-- Claim C3, counterexample: with a successful fetch and a nonempty
unpushed-commit log the verdict flag is true, not false as claimed; the
unpushed-commits report is returned through the has_conflicts slot. -/
theorem c3_counterexample :
    (checkForConflicts
        ⟨true, [], str "main\n", true, str "abc123 wip\n",
         true, [], [], true, []⟩ none).1 = true ∧
    ¬ (checkForConflicts
        ⟨true, [], str "main\n", true, str "abc123 wip\n",
         true, [], [], true, []⟩ none).1 = false := by
  decide

/-- Claim C3 as amended: when the fetch succeeds and the local branch has
unpushed commits, check_for_conflicts returns hasConflict = true (not
false) with a reason naming the current branch and the unpushed commits;
the report flows through the same flag that marks blocking conflicts. -/
theorem c3_amended (w : ConflictWorld) (tb : Option Str)
    (hf : w.fetchOk = true) (hu : w.unpushedOk = true)
    (hs : pyStrip w.unpushedStdout ≠ []) :
    checkForConflicts w tb =
      (true, str "本地分支 " ++ pyStrip w.branchStdout ++ str " 有未推送的提交") := by
  unfold checkForConflicts
  rw [hf]
  simp [hu, hs]

/-- Witness for the amended claim C3 at a concrete repository state. -/
theorem c3_amended_witness :
    checkForConflicts
        ⟨true, [], str "develop\n", true, str "f00 more work\n",
         true, [], [], true, []⟩ none =
      (true, str "本地分支 " ++ pyStrip (str "develop\n") ++ str " 有未推送的提交") :=
  c3_amended _ none rfl rfl (by decide)

/- ## MergeConflictPrevention.handle_conflicts (lines 273-327) -/

/-- The subprocess results one loop iteration of handle_conflicts can
consume: the conflict check, the integrating pull, the stage-all and the
merge commit. -/
structure AttemptEnv where
  hasConflicts : Bool
  checkReason : Str
  pullOk : Bool
  pullStdout : Str
  pullStderr : Str
  addOk : Bool
  commitOk : Bool
deriving DecidableEq

/-- The observable outcome of handle_conflicts: how many loop iterations
ran, the sleeps performed between them (each of retry_delay seconds,
line 317), and the returned (bool, message) pair. -/
structure ResolveTrace where
  attempts : Nat
  waits : List Nat
  ok : Bool
  message : Str
deriving DecidableEq

/-- The for-loop of handle_conflicts, lines 277-319, running on the
remaining iteration count; the environment o gives the subprocess results
of each attempt index. The final fall-through return at line 327 is only
reached when the loop body never runs. -/
def handleLoop (o : Nat → AttemptEnv) (d : Nat) (m : Nat) : Nat → ResolveTrace
  | 0 => ⟨0, [], false, str "达到最大重试次数"⟩
  | Nat.succ n =>
    let e := o (m - Nat.succ n)
    if e.hasConflicts = false then ⟨1, [], true, str "无冲突，准备提交"⟩
    else if e.pullOk then ⟨1, [], true, str "自动合并成功"⟩
    else
      let fallthru : ResolveTrace :=
        if 0 < n then
          let t := handleLoop o d m n
          ⟨t.attempts + 1, d :: t.waits, t.ok, t.message⟩
        else ⟨1, [], false, str "冲突处理失败，请手动解决: " ++ e.pullStderr⟩
      if pyContains (pyUpper e.pullStdout) (str "CONFLICT") then
        if e.addOk then
          if e.commitOk then ⟨1, [], true, str "自动解决合并冲突"⟩
          else fallthru
        else fallthru
      else fallthru

/-- handle_conflicts, lines 273-327. The argument follows the source
idiom max_retries or self.max_retry_attempts: a missing or zero argument
falls back to the configured default. -/
def handleConflicts (o : Nat → AttemptEnv) (retryDelay : Nat)
    (configMaxRetries : Nat) (arg : Option Nat) : ResolveTrace :=
  let m := match arg with
    | none => configMaxRetries
    | some k => if k = 0 then configMaxRetries else k
  handleLoop o retryDelay m m

/-- Under a conflict that persists on every check with no successful pull
or merge commit, every iteration of the loop falls through to the retry
arm, so the loop runs down its full remaining budget. -/
theorem handleLoop_persistent (o : Nat → AttemptEnv) (d m : Nat)
    (hc : ∀ i, (o i).hasConflicts = true)
    (hp : ∀ i, (o i).pullOk = false)
    (hk : ∀ i, (o i).commitOk = false) :
    ∀ n, 1 ≤ n →
      handleLoop o d m n =
        ⟨n, List.replicate (n - 1) d, false,
          str "冲突处理失败，请手动解决: " ++ (o (m - 1)).pullStderr⟩ := by
  intro n
  induction n with
  | zero => omega
  | succ k ih =>
    intro _
    cases k with
    | zero =>
      simp [handleLoop, hc, hp, hk]
    | succ j =>
      have hrec := ih (by omega)
      rw [handleLoop]
      simp [hc, hp, hk, hrec, List.replicate_succ]

/-- Claim C6: resolve with a positive retry budget m against a conflict
that persists on every check makes exactly m attempts, sleeps retry_delay
seconds between consecutive attempts (m - 1 sleeps, each of exactly the
configured delay), and then terminates, returning failure with the
underlying pull error text; it never retries beyond the budget. -/
theorem c6_bounded_retries (o : Nat → AttemptEnv) (d cm m : Nat) (hm : 1 ≤ m)
    (hc : ∀ i, (o i).hasConflicts = true)
    (hp : ∀ i, (o i).pullOk = false)
    (hk : ∀ i, (o i).commitOk = false) :
    handleConflicts o d cm (some m) =
      ⟨m, List.replicate (m - 1) d, false,
        str "冲突处理失败，请手动解决: " ++ (o (m - 1)).pullStderr⟩ := by
  unfold handleConflicts
  have hm0 : ¬ m = 0 := by omega
  simp only [hm0, if_false]
  exact handleLoop_persistent o d m hc hp hk m hm

/-- Witness for claim C6: a permanently conflicted environment with
maxRetries = 3 and retryDelay = 2 yields exactly 3 attempts, 2 sleeps of
2 seconds, and the failure message carrying the pull stderr. -/
theorem c6_bounded_retries_witness :
    handleConflicts
        (fun _ => ⟨true, [], false, str "CONFLICT in a.py", str "merge failed", true, false⟩)
        2 3 (some 3) =
      ⟨3, List.replicate 2 2, false,
        str "冲突处理失败，请手动解决: " ++ str "merge failed"⟩ :=
  c6_bounded_retries
    (fun _ => ⟨true, [], false, str "CONFLICT in a.py", str "merge failed", true, false⟩)
    2 3 3 (by omega) (fun _ => rfl) (fun _ => rfl) (fun _ => rfl)

/- ## Flush mutual exclusion (src/enhanced_git_automation.py lines 519-616) -/

/-- Phase of one invocation of process_changes: not yet entered, returned
early from the guarded section (line 522-523), executing the flush body
with the processing_changes flag held, or finished. -/
inductive FlushPhase
  | idle
  | skipped
  | running
  | done
deriving DecidableEq

/-- Shared scheduler state for n concurrent invocations: the
processing_changes flag (line 342), nonemptiness of pending_changes, one
phase per invocation, and the number of commits performed so far. -/
structure SchedState (n : Nat) where
  processing : Bool
  pending : Bool
  phase : Fin n → FlushPhase
  commits : Nat

/-- Atomic transitions of the scheduler. The guarded test-and-set of
processing_changes runs under change_lock (lines 521-525), so entering is
one atomic step; leaving the body models the finally clause at line 616,
which clears the flag on every exit path (the commit path also clears
pending_changes at line 608); record models on_any_event appending a new
pending change, allowed at any time (lines 654-660). -/
inductive SchedStep (n : Nat) : SchedState n → SchedState n → Prop
  | record (s : SchedState n) :
      SchedStep n s { s with pending := true }
  | enterSkip (s : SchedState n) (t : Fin n) :
      s.phase t = FlushPhase.idle →
      (s.processing = true ∨ s.pending = false) →
      SchedStep n s { s with phase := Function.update s.phase t FlushPhase.skipped }
  | enterRun (s : SchedState n) (t : Fin n) :
      s.phase t = FlushPhase.idle →
      s.processing = false →
      s.pending = true →
      SchedStep n s { s with processing := true, phase := Function.update s.phase t FlushPhase.running }
  | exitCommit (s : SchedState n) (t : Fin n) :
      s.phase t = FlushPhase.running →
      SchedStep n s { s with processing := false, pending := false, commits := s.commits + 1, phase := Function.update s.phase t FlushPhase.done }
  | exitAbort (s : SchedState n) (t : Fin n) :
      s.phase t = FlushPhase.running →
      SchedStep n s { s with processing := false, phase := Function.update s.phase t FlushPhase.done }

/-- The initial state: flag clear, queue empty, nothing entered. -/
def schedInit (n : Nat) : SchedState n :=
  ⟨false, false, fun _ => FlushPhase.idle, 0⟩

/-- States reachable from the initial state. -/
inductive SchedReach (n : Nat) : SchedState n → Prop
  | start : SchedReach n (schedInit n)
  | step {s s' : SchedState n} :
      SchedReach n s → SchedStep n s s' → SchedReach n s'

/-- The inductive invariant: the running phase is unique and implies the
flag; a clear flag means nobody is in the critical section. -/
theorem sched_invariant (n : Nat) (s : SchedState n) (h : SchedReach n s) :
    (∀ t u : Fin n, s.phase t = FlushPhase.running →
        s.phase u = FlushPhase.running → t = u) ∧
    (s.processing = false → ∀ t : Fin n, s.phase t ≠ FlushPhase.running) := by
  induction h with
  | start =>
    constructor
    · intro t u ht _
      simp [schedInit] at ht
    · intro _ t ht
      simp [schedInit] at ht
  | @step s s' _ hstep ih =>
    obtain ⟨ih1, ih2⟩ := ih
    cases hstep with
    | record => exact ⟨ih1, ih2⟩
    | enterSkip t hidle hcond =>
      constructor
      · intro a b ha hb
        simp only [Function.update_apply] at ha hb
        by_cases hat : a = t
        · rw [if_pos hat] at ha
          exact absurd ha (by decide)
        · rw [if_neg hat] at ha
          by_cases hbt : b = t
          · rw [if_pos hbt] at hb
            exact absurd hb (by decide)
          · rw [if_neg hbt] at hb
            exact ih1 a b ha hb
      · intro hproc a ha
        simp only [Function.update_apply] at ha
        by_cases hat : a = t
        · rw [if_pos hat] at ha
          exact absurd ha (by decide)
        · rw [if_neg hat] at ha
          exact ih2 hproc a ha
    | enterRun t hidle hproc hpend =>
      have hnone : ∀ a : Fin n, s.phase a ≠ FlushPhase.running := ih2 hproc
      constructor
      · intro a b ha hb
        simp only [Function.update_apply] at ha hb
        by_cases hat : a = t
        · by_cases hbt : b = t
          · rw [hat, hbt]
          · rw [if_neg hbt] at hb
            exact absurd hb (hnone b)
        · rw [if_neg hat] at ha
          exact absurd ha (hnone a)
      · intro hcontra a _
        simp at hcontra
    | exitCommit t hrun =>
      constructor
      · intro a b ha hb
        simp only [Function.update_apply] at ha hb
        by_cases hat : a = t
        · rw [if_pos hat] at ha
          exact absurd ha (by decide)
        · rw [if_neg hat] at ha
          by_cases hbt : b = t
          · rw [if_pos hbt] at hb
            exact absurd hb (by decide)
          · rw [if_neg hbt] at hb
            exact ih1 a b ha hb
      · intro _ a ha
        simp only [Function.update_apply] at ha
        by_cases hat : a = t
        · rw [if_pos hat] at ha
          exact absurd ha (by decide)
        · rw [if_neg hat] at ha
          exact absurd (ih1 a t ha hrun) hat
    | exitAbort t hrun =>
      constructor
      · intro a b ha hb
        simp only [Function.update_apply] at ha hb
        by_cases hat : a = t
        · rw [if_pos hat] at ha
          exact absurd ha (by decide)
        · rw [if_neg hat] at ha
          by_cases hbt : b = t
          · rw [if_pos hbt] at hb
            exact absurd hb (by decide)
          · rw [if_neg hbt] at hb
            exact ih1 a b ha hb
      · intro _ a ha
        simp only [Function.update_apply] at ha
        by_cases hat : a = t
        · rw [if_pos hat] at ha
          exact absurd ha (by decide)
        · rw [if_neg hat] at ha
          exact absurd (ih1 a t ha hrun) hat

/-- Claim C7: in every reachable scheduler state at most one invocation of
process_changes is inside the flush critical section; while a flush is in
progress no step lets another invocation enter it (its attempt ends in the
skipped no-op phase, which performs no commit); and once no flush is
running and changes are pending, an idle invocation can enter, so a new
flush can start after any flush completes. -/
theorem c7_flush_mutex (n : Nat) (s : SchedState n) (h : SchedReach n s) :
    (∀ t u : Fin n, s.phase t = FlushPhase.running →
        s.phase u = FlushPhase.running → t = u) ∧
    (∀ s' : SchedState n, ∀ t : Fin n, s.processing = true →
        SchedStep n s s' → s'.phase t = FlushPhase.running →
        s.phase t = FlushPhase.running) ∧
    (∀ s' : SchedState n, ∀ t : Fin n, s.phase t = FlushPhase.idle →
        SchedStep n s s' → s'.phase t = FlushPhase.skipped →
        s'.commits = s.commits) ∧
    (∀ t : Fin n, s.phase t = FlushPhase.idle → s.processing = false →
        s.pending = true →
        ∃ s' : SchedState n, SchedStep n s s' ∧
          s'.phase t = FlushPhase.running) := by
  refine ⟨(sched_invariant n s h).1, ?_, ?_, ?_⟩
  · intro s' t hproc hstep hrun
    cases hstep with
    | record => exact hrun
    | enterSkip u hidle hcond =>
      simp only [Function.update_apply] at hrun
      by_cases htu : t = u
      · rw [if_pos htu] at hrun
        exact absurd hrun (by decide)
      · rwa [if_neg htu] at hrun
    | enterRun u hidle hp hq =>
      exact absurd hproc (by simp [hp])
    | exitCommit u hr =>
      simp only [Function.update_apply] at hrun
      by_cases htu : t = u
      · rw [if_pos htu] at hrun
        exact absurd hrun (by decide)
      · rwa [if_neg htu] at hrun
    | exitAbort u hr =>
      simp only [Function.update_apply] at hrun
      by_cases htu : t = u
      · rw [if_pos htu] at hrun
        exact absurd hrun (by decide)
      · rwa [if_neg htu] at hrun
  · intro s' t hidle hstep hskip
    cases hstep with
    | record => rfl
    | enterSkip u h1 h2 => rfl
    | enterRun u h1 h2 h3 => rfl
    | exitCommit u hr =>
      simp only [Function.update_apply] at hskip
      by_cases htu : t = u
      · rw [if_pos htu] at hskip
        exact absurd hskip (by decide)
      · rw [if_neg htu] at hskip
        rw [hidle] at hskip
        exact absurd hskip (by decide)
    | exitAbort u hr => rfl
  · intro t hidle hproc hpend
    refine ⟨_, SchedStep.enterRun s t hidle hproc hpend, ?_⟩
    simp [Function.update_apply]

/-- A reachable demonstration state for the witness: one pending change
recorded, no flush running. -/
def schedDemo : SchedState 2 := ⟨false, true, fun _ => FlushPhase.idle, 0⟩

/-- Witness for claim C7 at the concrete reachable state schedDemo. -/
theorem c7_flush_mutex_witness :
    (∀ t u : Fin 2, schedDemo.phase t = FlushPhase.running →
        schedDemo.phase u = FlushPhase.running → t = u) ∧
    (∀ s' : SchedState 2, ∀ t : Fin 2, schedDemo.processing = true →
        SchedStep 2 schedDemo s' → s'.phase t = FlushPhase.running →
        schedDemo.phase t = FlushPhase.running) ∧
    (∀ s' : SchedState 2, ∀ t : Fin 2, schedDemo.phase t = FlushPhase.idle →
        SchedStep 2 schedDemo s' → s'.phase t = FlushPhase.skipped →
        s'.commits = schedDemo.commits) ∧
    (∀ t : Fin 2, schedDemo.phase t = FlushPhase.idle →
        schedDemo.processing = false → schedDemo.pending = true →
        ∃ s' : SchedState 2, SchedStep 2 schedDemo s' ∧
          s'.phase t = FlushPhase.running) :=
  c7_flush_mutex 2 schedDemo
    (SchedReach.step SchedReach.start (SchedStep.record (schedInit 2)))

/- ## Claim C8: dominant category selection -/

/-- The scan result dominates the seed and every scanned entry. -/
theorem maxStep_le (xs : List (Cat × Nat)) :
    ∀ x y : Cat × Nat, (y = x ∨ y ∈ xs) → y.2 ≤ (xs.foldl maxStep x).2 := by
  induction xs with
  | nil =>
    intro x y h
    rcases h with rfl | h
    · exact le_refl _
    · cases h
  | cons z zs ih =>
    intro x y h
    have h1 : x.2 ≤ (maxStep x z).2 := by
      unfold maxStep
      split <;> omega
    have h2 : z.2 ≤ (maxStep x z).2 := by
      unfold maxStep
      split <;> omega
    have hfold : (maxStep x z).2 ≤ (zs.foldl maxStep (maxStep x z)).2 :=
      ih (maxStep x z) (maxStep x z) (Or.inl rfl)
    rcases h with rfl | h
    · simpa [List.foldl_cons] using le_trans h1 hfold
    · rcases List.mem_cons.mp h with rfl | h
      · simpa [List.foldl_cons] using le_trans h2 hfold
      · simpa [List.foldl_cons] using ih (maxStep x z) y (Or.inr h)

/-- The scanned list splits around the scan result: every entry strictly
before the winning occurrence is strictly smaller (Python max keeps the
current best on ties), and every entry after it is no larger. -/
theorem maxStep_split (xs : List (Cat × Nat)) :
    ∀ x : Cat × Nat, ∃ l1 l2,
      x :: xs = l1 ++ (xs.foldl maxStep x) :: l2 ∧
      (∀ y ∈ l1, y.2 < (xs.foldl maxStep x).2) ∧
      (∀ y ∈ l2, y.2 ≤ (xs.foldl maxStep x).2) := by
  induction xs with
  | nil =>
    intro x
    exact ⟨[], [], by simp, by simp, by simp⟩
  | cons z zs ih =>
    intro x
    obtain ⟨l1, l2, heq, hlt, hle⟩ := ih (maxStep x z)
    rw [List.foldl_cons]
    by_cases hxz : x.2 < z.2
    · have hz : maxStep x z = z := by
        unfold maxStep
        rw [if_pos hxz]
      have hzr : z.2 ≤ (zs.foldl maxStep (maxStep x z)).2 :=
        maxStep_le zs (maxStep x z) z (Or.inl hz.symm)
      refine ⟨x :: l1, l2, ?_, ?_, hle⟩
      · rw [List.cons_append, ← heq, hz]
      · intro y hy
        rcases List.mem_cons.mp hy with rfl | hy
        · omega
        · exact hlt y hy
    · have hz : maxStep x z = x := by
        unfold maxStep
        rw [if_neg hxz]
      rw [hz]
      rw [hz] at heq hlt hle
      cases l1 with
      | nil =>
        rw [List.nil_append] at heq
        injection heq with hre hl2
        refine ⟨[], z :: zs, ?_, by simp, ?_⟩
        · rw [List.nil_append, ← hre]
        · intro y hy
          rcases List.mem_cons.mp hy with rfl | hy
          · rw [← hre]
            omega
          · exact hle y (hl2 ▸ hy)
      | cons a l1' =>
        rw [List.cons_append] at heq
        injection heq with ha hrest
        have hxlt : x.2 < (zs.foldl maxStep x).2 := by
          have h0 := hlt a (List.mem_cons_self a l1')
          rw [← ha] at h0
          exact h0
        refine ⟨x :: z :: l1', l2, ?_, ?_, hle⟩
        · rw [List.cons_append, List.cons_append, ← hrest]
        · intro y hy
          rcases List.mem_cons.mp hy with rfl | hy
          · exact hxlt
          rcases List.mem_cons.mp hy with rfl | hy
          · omega
          · exact hlt y (List.mem_cons_of_mem a hy)

/-- Every entry of the filtered category dict pairs a category with its
positive count. -/
theorem fileCategories_entries (files : List Str) :
    ∀ p ∈ fileCategories files, p = (p.1, catCount p.1 files) ∧ 0 < p.2 := by
  intro p hp
  unfold fileCategories at hp
  obtain ⟨hmem, hpos⟩ := List.mem_filter.mp hp
  obtain ⟨c, hc, rfl⟩ := List.mem_map.mp hmem
  exact ⟨rfl, by simpa using hpos⟩

/-- The filtered category dict lists its keys in strictly increasing
enumeration order. -/
theorem fileCategories_pairwise (files : List Str) :
    (fileCategories files).Pairwise (fun a b => catIdx a.1 < catIdx b.1) := by
  unfold fileCategories
  apply List.Pairwise.filter
  rw [List.pairwise_map]
  dsimp only
  decide

/-- A category with a positive count appears in the filtered dict. -/
theorem mem_fileCategories (files : List Str) (c : Cat)
    (h : 0 < catCount c files) :
    (c, catCount c files) ∈ fileCategories files := by
  unfold fileCategories
  apply List.mem_filter.mpr
  refine ⟨List.mem_map.mpr ⟨c, ?_, rfl⟩, by simpa using h⟩
  cases c <;> simp [allCats]

/-- Claim C8: for a nonempty file set the dominant category selected for
the commit-message label has the highest count among all six categories,
ties are broken in favour of the category appearing first in the fixed
enumeration order code, config, docs, style, test, other, and
category_desc appends exactly that label. -/
theorem c8_dominant_category (files : List Str) (h : files ≠ []) :
    ∃ m : Cat, mainCategory files = some m ∧ 0 < catCount m files ∧
      (∀ c : Cat, catCount c files ≤ catCount m files) ∧
      (∀ c : Cat, catCount c files = catCount m files → catIdx m ≤ catIdx c) ∧
      categoryDesc files = str " [" ++ catName m ++ str "]" := by
  obtain ⟨f, hf⟩ : ∃ f, f ∈ files := List.exists_mem_of_ne_nil files h
  have hpos : 0 < catCount (categoryOf f) files := by
    unfold catCount
    exact List.countP_pos_iff.mpr ⟨f, hf, by simp⟩
  have hmem0 := mem_fileCategories files (categoryOf f) hpos
  rcases hfc : fileCategories files with _ | ⟨x, xs⟩
  · rw [hfc] at hmem0
    cases hmem0
  · obtain ⟨l1, l2, heq, hlt, hle⟩ := maxStep_split xs x
    set r := xs.foldl maxStep x with hr
    have hmain : mainCategory files = some r.1 := by
      unfold mainCategory
      rw [hfc]
      simp [pyMaxBySnd, hr]
    have hrmem : r ∈ fileCategories files := by
      rw [hfc, heq]
      exact List.mem_append.mpr (Or.inr (List.mem_cons_self r l2))
    have hform := fileCategories_entries files r hrmem
    have hr2 : r.2 = catCount r.1 files := congrArg Prod.snd hform.1
    refine ⟨r.1, hmain, ?_, ?_, ?_, ?_⟩
    · rw [← hr2]
      exact hform.2
    · intro c
      by_cases hc0 : 0 < catCount c files
      · have hcmem := mem_fileCategories files c hc0
        rw [hfc] at hcmem
        have hb := maxStep_le xs x (c, catCount c files)
          (List.mem_cons.mp hcmem)
        rw [← hr2]
        simpa [hr] using hb
      · omega
    · intro c hcc
      by_cases hcm : c = r.1
      · rw [hcm]
      · have hc0 : 0 < catCount c files := by
          rw [hcc, ← hr2]
          exact hform.2
        have hcmem := mem_fileCategories files c hc0
        rw [hfc, heq] at hcmem
        rcases List.mem_append.mp hcmem with h1 | h1
        · have hsmall := hlt _ h1
          simp only at hsmall
          omega
        · rcases List.mem_cons.mp h1 with h2 | h2
          · exact absurd (congrArg Prod.fst h2) hcm
          · have hpw := fileCategories_pairwise files
            rw [hfc, heq] at hpw
            have hparts := List.pairwise_append.mp hpw
            have hrel := (List.pairwise_cons.mp hparts.2.1).1 _ h2
            exact le_of_lt hrel
    · unfold categoryDesc
      rw [hmain]

/-- Witness for claim C8 on a concrete file set: one code file and one
documentation file tie at count 1 and the code label wins. -/
theorem c8_dominant_category_witness :
    ∃ m : Cat, mainCategory [str "a.py", str "b.md"] = some m ∧
      0 < catCount m [str "a.py", str "b.md"] ∧
      (∀ c : Cat, catCount c [str "a.py", str "b.md"] ≤
        catCount m [str "a.py", str "b.md"]) ∧
      (∀ c : Cat, catCount c [str "a.py", str "b.md"] =
        catCount m [str "a.py", str "b.md"] → catIdx m ≤ catIdx c) ∧
      categoryDesc [str "a.py", str "b.md"] = str " [" ++ catName m ++ str "]" :=
  c8_dominant_category [str "a.py", str "b.md"] (by decide)

/- ## EnhancedGitAutomation.process_changes (lines 519-616) -/

/-- One parsed change of the porcelain status (lines 481-485). -/
structure StatusChange where
  file : Str
  ctype : Str
deriving DecidableEq

/-- Change-type classification from the two-character status code,
lines 470-479: default modified, then the A/??, D, R, C checks. -/
def classifyStatusCode (sc : Str) : Str :=
  if sc.take 1 = str "A" || sc = str "??" then str "added"
  else if sc.take 1 = str "D" then str "deleted"
  else if sc.take 1 = str "R" then str "renamed"
  else if sc.take 1 = str "C" then str "copied"
  else str "modified"

/-- Parse the porcelain v1 stdout as at lines 464-485: strip, split into
lines, skip empty lines, take line[:2] as the code and line[3:] as the
file. -/
def parseStatusLines (stdout : Str) : List StatusChange :=
  ((pyStrip stdout).splitOn '\n').filterMap (fun line =>
    if line = [] then none
    else some ⟨line.drop 3, classifyStatusCode (line.take 2)⟩)

/-- The git_info dict of EnhancedGitAutomation.get_git_status
(lines 487-492). -/
structure EnhancedStatus where
  currentBranch : Str
  changes : List StatusChange
  hasChanges : Bool
deriving DecidableEq

/-- The subprocess results process_changes consumes, one field per git
invocation: rev-parse, branch --show-current, status --porcelain, the
conflict checks, add, commit and push. -/
structure FlushWorld where
  processing : Bool
  pendingEmpty : Bool
  repoOk : Bool
  branchCmdOk : Bool
  branchStdout : Str
  statusCmdOk : Bool
  statusStdout : Str
  conflict : ConflictWorld
  addOk : Bool
  commitOk : Bool
  pushOk : Bool
deriving DecidableEq

/-- EnhancedGitAutomation.get_git_status, lines 432-497. -/
def getGitStatusE (w : FlushWorld) : Option EnhancedStatus :=
  if w.repoOk = false then none
  else if w.statusCmdOk = false then none
  else
    let cb := if w.branchCmdOk then pyStrip w.branchStdout else str "unknown"
    let cs := parseStatusLines w.statusStdout
    some ⟨cb, cs, decide (0 < cs.length)⟩

/-- The git subprocesses that mutate repository state during a flush. -/
inductive GitCmd
  | add
  | commit
  | push
deriving DecidableEq

/-- The configuration keys process_changes reads: conflict_handling
enabled, auto_push, and the commit-generation settings. -/
structure FlushConfig where
  conflictEnabled : Bool
  autoPush : Bool
  gen : CommitGenConfig
deriving DecidableEq

/-- The observable outcome of one process_changes call: the mutating git
commands issued in order, the boolean return value, and the commit message
synthesized (when reached). -/
structure FlushOutcome where
  trace : List GitCmd
  returned : Bool
  message : Option Str
deriving DecidableEq

/-- process_changes, lines 519-616: the guarded entry test (lines 521-525),
status query and has_changes test (lines 528-536), change-type analysis and
message synthesis (lines 538-552), the conflict gate (lines 556-561), then
git add, git commit, and, when auto_push is set, git push; a push failure
is only logged and the call still clears the queue and returns true
(lines 594-610). -/
def processChanges (w : FlushWorld) (cfg : FlushConfig) (timestamp : Str) :
    FlushOutcome :=
  if w.processing || w.pendingEmpty then ⟨[], false, none⟩
  else
    match getGitStatusE w with
    | none => ⟨[], false, none⟩
    | some st =>
      if st.hasChanges = false then ⟨[], false, none⟩
      else
        let types := (st.changes.map (fun c => c.ctype)).dedup
        let primary := match types with
          | [t] => t
          | _ => str "mixed"
        let files := st.changes.map (fun c => c.file)
        let msg := generateCommitMessage primary files cfg.gen timestamp
        if cfg.conflictEnabled &&
            !(checkForConflicts w.conflict none).1 then ⟨[], false, some msg⟩
        else if w.addOk = false then ⟨[GitCmd.add], false, some msg⟩
        else if w.commitOk = false then
          ⟨[GitCmd.add, GitCmd.commit], false, some msg⟩
        else if cfg.autoPush then
          ⟨[GitCmd.add, GitCmd.commit, GitCmd.push], true, some msg⟩
        else ⟨[GitCmd.add, GitCmd.commit], true, some msg⟩

/-- Claim C9: the commit pipeline stops at the first failing step and never
rolls back past it: git commit is issued only if git add was issued and
succeeded, git push is issued only if git commit was issued and succeeded,
and when the push step fails the flush still returns true, reporting the
local commit as successful with no rollback command in the trace. -/
theorem c9_pipeline_order (w : FlushWorld) (cfg : FlushConfig) (t : Str) :
    (GitCmd.commit ∈ (processChanges w cfg t).trace →
      GitCmd.add ∈ (processChanges w cfg t).trace ∧ w.addOk = true) ∧
    (GitCmd.push ∈ (processChanges w cfg t).trace →
      GitCmd.commit ∈ (processChanges w cfg t).trace ∧
      w.commitOk = true ∧ w.addOk = true) ∧
    (GitCmd.push ∈ (processChanges w cfg t).trace → w.pushOk = false →
      (processChanges w cfg t).returned = true) := by
  unfold processChanges
  split
  · simp
  · split
    · simp
    · split
      · simp
      · split
        · simp
        · split
          · simp_all
          · split
            · simp_all
            · split
              · simp_all
              · simp_all

/-- A concrete flush world for the witness: one untracked file, add and
commit succeed, the push fails. -/
def flushDemo : FlushWorld :=
  ⟨false, false, true, true, str "main\n", true, str "?? a.py\n",
   ⟨true, [], str "main\n", true, str "x\n", true, [], [], true, []⟩,
   true, true, false⟩

/-- Witness for claim C9: with a failing push the flush still issues the
full add-commit-push sequence and returns true. -/
theorem c9_pipeline_order_witness :
    GitCmd.push ∈ (processChanges flushDemo ⟨false, true, ⟨false, 100⟩⟩ []).trace ∧
    (processChanges flushDemo ⟨false, true, ⟨false, 100⟩⟩ []).returned = true := by
  refine ⟨by decide, ?_⟩
  exact (c9_pipeline_order flushDemo ⟨false, true, ⟨false, 100⟩⟩ []).2.2
    (by decide) rfl

/- ## AutoGitCommitHandler.commit_changes (src/auto_commit.py lines 113-228) -/

/-- Replace every occurrence of pat in s by repl, scanning left to right;
the fuel argument bounds the recursion by the input length. -/
def replaceAllAux (pat repl : Str) : Nat → Str → Str
  | 0, s => s
  | _ + 1, [] => []
  | fuel + 1, c :: rest =>
    if pat ≠ [] && pat.isPrefixOf (c :: rest) then
      repl ++ replaceAllAux pat repl fuel ((c :: rest).drop pat.length)
    else c :: replaceAllAux pat repl fuel rest

/-- Replace every occurrence of pat in s by repl. -/
def replaceAll (pat repl s : Str) : Str :=
  replaceAllAux pat repl s.length s

/-- Python str.format restricted to the three placeholder names used by
the commit_message_template (auto_commit.py lines 174-179). -/
def pyFormatTemplate (template timestamp : Str) (filesCount : Nat)
    (filesArg : Str) : Str :=
  replaceAll (str "{files}") filesArg
    (replaceAll (str "{files_count}") (natStr filesCount)
      (replaceAll (str "{timestamp}") timestamp template))

/-- The subprocess results commit_changes consumes: git status, git branch
--show-current, git add, git commit and git push. -/
structure AutoWorld where
  statusCmdOk : Bool
  statusStdout : Str
  branchCmdOk : Bool
  branchStdout : Str
  addOk : Bool
  commitOk : Bool
  pushOk : Bool
deriving DecidableEq

/-- The configuration keys commit_changes reads (auto_commit.py
lines 34-73): the branch allow-list switch and list, the message template
and the message length cap. -/
structure AutoConfig where
  enableBranchCheck : Bool
  allowedBranches : List Str
  commitMessageTemplate : Str
  maxCommitMessageLength : Nat
deriving DecidableEq

/-- The parsed git status of AutoGitCommitHandler.get_git_status,
lines 113-146: changed files are the nonempty lines of the stripped
porcelain output with the first three characters removed; the current
branch is None when the branch command fails. -/
structure AutoStatus where
  changedFiles : List Str
  currentBranch : Option Str
  hasChanges : Bool
deriving DecidableEq

/-- get_git_status, lines 113-146. -/
def getGitStatusA (w : AutoWorld) : Option AutoStatus :=
  if w.statusCmdOk = false then none
  else
    let files := ((pyStrip w.statusStdout).splitOn '\n').filterMap
      (fun line => if line = [] then none else some (line.drop 3))
    let cb := if w.branchCmdOk then some (pyStrip w.branchStdout) else none
    some ⟨files, cb, decide (pyStrip w.statusStdout ≠ [])⟩

/-- The observable outcome of one commit_changes call. -/
inductive AutoOutcome
  | errStatus
  | noChanges
  | branchSkipped
  | zeroFiles
  | addFailed
  | commitFailed
  | pushedOk
  | pushFailed
deriving DecidableEq

/-- Python truthiness of the current-branch value: None and the empty
string are falsy. -/
def branchTruthy : Option Str → Bool
  | none => false
  | some b => !b.isEmpty

/-- commit_changes, lines 148-228: status query, has_changes test, the
branch allow-list check (lines 160-165, short-circuiting on a falsy
current branch), message synthesis from the template with its own length
cap (lines 167-183), then git add, git commit and git push in order, each
gated on the success of the previous step. -/
def commitChanges (w : AutoWorld) (cfg : AutoConfig) (timestamp : Str) :
    List GitCmd × AutoOutcome × Option Str :=
  match getGitStatusA w with
  | none => ([], .errStatus, none)
  | some st =>
    if st.hasChanges = false then ([], .noChanges, none)
    else if cfg.enableBranchCheck && branchTruthy st.currentBranch &&
        !(cfg.allowedBranches.contains (st.currentBranch.getD [])) then
      ([], .branchSkipped, none)
    else
      let filesCount := st.changedFiles.length
      if filesCount = 0 then ([], .zeroFiles, none)
      else
        let filesArg := List.intercalate (str ", ") (st.changedFiles.take 3) ++
          (if 3 < filesCount then str "..." else [])
        let m0 := pyFormatTemplate cfg.commitMessageTemplate timestamp
          filesCount filesArg
        let msg := if cfg.maxCommitMessageLength < m0.length then
            m0.take cfg.maxCommitMessageLength ++ str "..."
          else m0
        if w.addOk = false then ([GitCmd.add], .addFailed, some msg)
        else if w.commitOk = false then
          ([GitCmd.add, GitCmd.commit], .commitFailed, some msg)
        else if w.pushOk then
          ([GitCmd.add, GitCmd.commit, GitCmd.push], .pushedOk, some msg)
        else ([GitCmd.add, GitCmd.commit, GitCmd.push], .pushFailed, some msg)

/-- Claim C10: when the branch allow-list check is enabled but the current
branch is None (failed branch command) or empty (detached HEAD), the
Python truthiness test short-circuits the check, so for every
allowed_branches list the flush is not rejected: it proceeds to git add,
then to git commit when add succeeds, and to git push when commit also
succeeds. -/
theorem c10_falsy_branch_bypasses_allowlist (w : AutoWorld) (cfg : AutoConfig)
    (t : Str) (st : AutoStatus) (hst : getGitStatusA w = some st)
    (hen : cfg.enableBranchCheck = true)
    (hbr : st.currentBranch = none ∨ st.currentBranch = some [])
    (hch : st.hasChanges = true)
    (hfe : st.changedFiles ≠ []) :
    (commitChanges w cfg t).2.1 ≠ AutoOutcome.branchSkipped ∧
    GitCmd.add ∈ (commitChanges w cfg t).1 ∧
    (w.addOk = true → GitCmd.commit ∈ (commitChanges w cfg t).1) ∧
    (w.addOk = true → w.commitOk = true → GitCmd.push ∈ (commitChanges w cfg t).1) := by
  have htr : branchTruthy st.currentBranch = false := by
    rcases hbr with hbr | hbr <;> rw [hbr] <;> rfl
  have hcnt : ¬ st.changedFiles.length = 0 := by
    simpa [List.length_eq_zero] using hfe
  unfold commitChanges
  rw [hst]
  split
  · simp_all
  · split
    · simp_all
    · split
      · simp_all
      · split
        · simp_all
        · split
          · simp_all
          · split <;> simp_all

/-- A concrete auto-commit world for the witness: detached HEAD (empty
branch output), one untracked file, all git commands succeed. -/
def autoDemo : AutoWorld :=
  ⟨true, str "?? a.py\n", true, str "\n", true, true, true⟩

/-- The default auto-commit configuration of load_config, lines 34-73. -/
def autoDemoCfg : AutoConfig :=
  ⟨true, [str "main", str "master", str "develop"],
   str "自动提交 {timestamp} - {files_count} 个文件", 100⟩

/-- Witness for claim C10: with the branch check enabled and an empty
current-branch name the flush proceeds through add, commit and push. -/
theorem c10_falsy_branch_witness :
    (commitChanges autoDemo autoDemoCfg (str "2025-01-01 00:00:00")).2.1 ≠
        AutoOutcome.branchSkipped ∧
    GitCmd.add ∈ (commitChanges autoDemo autoDemoCfg (str "2025-01-01 00:00:00")).1 ∧
    (autoDemo.addOk = true →
      GitCmd.commit ∈ (commitChanges autoDemo autoDemoCfg (str "2025-01-01 00:00:00")).1) ∧
    (autoDemo.addOk = true → autoDemo.commitOk = true →
      GitCmd.push ∈ (commitChanges autoDemo autoDemoCfg (str "2025-01-01 00:00:00")).1) :=
  c10_falsy_branch_bypasses_allowlist autoDemo autoDemoCfg
    (str "2025-01-01 00:00:00") ⟨[str "a.py"], some [], true⟩
    (by decide) rfl (Or.inr rfl) rfl (by decide)
